import Mathlib

namespace Himalayas

/-!
Verification development for the Himalayas route-visualizer repository.

Shallow embedding of the day-assignment layer, the import/merge layer of the
route library, the persistence gateway, the waypoint geocoding batch, the
partial segment recalculation, and the routable-coordinate fallback search.
Each definition is translated from the corresponding JavaScript source
function; doc comments name the source file and function.
-/

/-! ## Day assignment (RouteEditor.jsx, TripDaysSection) -/

/-- Helper of `sanitizeSegmentDays`: carries the previous (already sanitized)
day forward, raising each later day to at least the previous one.
Mirrors the loop `out[i] = Math.max(out[i], out[i - 1])` of
`RouteEditor.jsx:sanitizeSegmentDays`. -/
def sanitizeAux : Int → List Int → List Int
  | prev, [] => [prev]
  | prev, d :: rest => prev :: sanitizeAux (max d prev) rest

/-- `RouteEditor.jsx:sanitizeSegmentDays` (lines 575-583): enforce
`segmentDays[0] >= 1` and `segmentDays[i] >= segmentDays[i-1]`.
The source guards `out[0] ?? 1`; days are always numbers here, so the
nullish fallback is not represented. -/
def sanitizeSegmentDays : List Int → List Int
  | [] => []
  | d :: rest => sanitizeAux (max 1 d) rest

/-- Helper of `defaultSegmentDays`: the raw array built by the loop
`result.push(existing && i < existing.length ? existing[i] : i + 1)`. -/
def defaultDaysRaw (n : Nat) (existing : Option (List Int)) : List Int :=
  (List.range n).map fun i =>
    match existing with
    | some ex => if h : i < ex.length then ex.get ⟨i, h⟩ else (i : Int) + 1
    | none => (i : Int) + 1

/-- `RouteEditor.jsx:defaultSegmentDays` (lines 586-600). The source takes
the segment array and uses only its length, so the embedding takes the
segment count `n`. Existing days of the same length are reused (sanitized);
otherwise values are carried over per index and new positions get `i + 1`,
then the result is sanitized. -/
def defaultSegmentDays (n : Nat) (existing : Option (List Int)) : List Int :=
  if n = 0 then []
  else
    match existing with
    | some ex =>
        if ex.length = n then sanitizeSegmentDays ex
        else sanitizeSegmentDays (defaultDaysRaw n (some ex))
    | none => sanitizeSegmentDays (defaultDaysRaw n none)

/-- `TripDaysSection:handleSegmentDayChange` (unnamed part, lines 67-79):
clamp the requested value to `[minDay, 999]` where `minDay` is the previous
day (or 1 at index 0), set it, and cascade forward with
`next[j] = Math.max(next[j], day)`. -/
def handleSegmentDayChange (days : List Int) (i : Nat) (v : Int) : List Int :=
  let minDay : Int := if i = 0 then 1 else days.getD (i - 1) 1
  let day : Int := max minDay (min v 999)
  (List.range days.length).map fun j =>
    if j < i then days.getD j 1
    else if j = i then day
    else max (days.getD j 1) day

/-- The segment-day invariant of the spec: first day at least 1 and the
sequence is non-decreasing. -/
def DaysInvariant (days : List Int) : Prop :=
  (∀ h : 0 < days.length, 1 ≤ days.get ⟨0, h⟩) ∧ List.Chain' (· ≤ ·) days

/-! ### Lemmas about sanitization -/

/-! ## Persistence gateway and route library import
(storage utility part and RouteLibrary.jsx) -/

/-- A stored route. `payload` abstracts the content fields (name, waypoints,
segments, ...) that the storage and merge layers copy around untouched;
timestamps are abstract instants (larger = later). -/
structure Route where
  id : Nat
  updatedAt : Option Nat
  createdAt : Option Nat
  payload : Nat
deriving DecidableEq

/-- The `routeToSave` object built by `saveRoute` (storage utility,
lines 114-120): spread the route, set `updatedAt` to the save time `now`,
keep `createdAt` or default it to `now`. -/
def routeToSave (now : Nat) (r : Route) : Route :=
  { r with updatedAt := some now, createdAt := some (r.createdAt.getD now) }

/-- IndexedDB `db.put('routes', x)`: upsert keyed by `id` — replace the
entry with the same id, or add the entry when none exists. -/
def putRoute : List Route → Route → List Route
  | [], x => [x]
  | s :: rest, x => if s.id = x.id then x :: rest else s :: putRoute rest x

/-- `saveRoute` (storage utility, lines 106-130): stamp the timestamps and
put the result. -/
def saveRoute (now : Nat) (store : List Route) (r : Route) : List Route :=
  putRoute store (routeToSave now r)

/-- Lookup by id (IndexedDB `get` / the `existingRoutesMap` lookup). -/
def findRouteById (store : List Route) (i : Nat) : Option Route :=
  store.find? fun r => decide (r.id = i)

/-- `importedRoute.updatedAt || importedRoute.createdAt`
(RouteLibrary.jsx lines 283-284). -/
def effTime (r : Route) : Option Nat :=
  match r.updatedAt with
  | some t => some t
  | none => r.createdAt

/-- The JavaScript comparison `importedTime > existingTime` after
`new Date(x).getTime()`: a missing timestamp becomes `NaN` and every
comparison against `NaN` is false. -/
def jsGtTime : Option Nat → Option Nat → Bool
  | some a, some b => decide (b < a)
  | _, _ => false

/-- The merge-mode loop of `handleImportConfirm`
(RouteLibrary.jsx lines 270-296). `orig` is the `existingRoutesMap`
snapshot taken before the loop; the accumulators are the evolving store
and the added / updated / skipped counters. -/
def mergeImportGo (now : Nat) (orig : List Route) :
    List Route → List Route → Nat → Nat → Nat → List Route × Nat × Nat × Nat
  | [], store, a, u, s => (store, a, u, s)
  | r :: rest, store, a, u, s =>
    match findRouteById orig r.id with
    | none => mergeImportGo now orig rest (saveRoute now store r) (a + 1) u s
    | some ex =>
        if jsGtTime (effTime r) (effTime ex) then
          mergeImportGo now orig rest (saveRoute now store r) a (u + 1) s
        else
          mergeImportGo now orig rest store a u (s + 1)

/-- Merge-mode import: run the loop against a snapshot of the current
store with zeroed counters. -/
def mergeImport (now : Nat) (store : List Route) (file : List Route) :
    List Route × Nat × Nat × Nat :=
  mergeImportGo now store file store 0 0 0

/-- Routes with a local id match counted as added by the merge loop. -/
def addedCount (orig file : List Route) : Nat :=
  (file.filter fun e => (findRouteById orig e.id).isNone).length

/-- Routes counted as updated by the merge loop. -/
def updatedCount (orig file : List Route) : Nat :=
  (file.filter fun e =>
    match findRouteById orig e.id with
    | some ex => jsGtTime (effTime e) (effTime ex)
    | none => false).length

/-- Routes counted as skipped by the merge loop. -/
def skippedCount (orig file : List Route) : Nat :=
  (file.filter fun e =>
    match findRouteById orig e.id with
    | some ex => !jsGtTime (effTime e) (effTime ex)
    | none => false).length

/-- The value stored for an imported route after the merge loop: the
stamped copy when the id is new or the imported copy is strictly newer,
the untouched local copy otherwise. -/
def mergeOutcome (now : Nat) (orig : List Route) (e : Route) : Option Route :=
  match findRouteById orig e.id with
  | none => some (routeToSave now e)
  | some ex =>
      some (if jsGtTime (effTime e) (effTime ex) then routeToSave now e else ex)

/-! ## Import event traces (RouteLibrary.jsx, backup-before-import) -/

/-- Import modes of the library import dialog. -/
inductive ImportMode
  | merge
  | newOnly
  | replace
deriving DecidableEq

/-- Observable storage-affecting events of an import run: the backup
download produced by `createBackup` (carrying its timestamp and the full
current route set), a `saveRoute` put, and a `deleteRoute`. -/
inductive ImportEvent
  | backup (exportedAt : Nat) (routes : List Route)
  | putR (r : Route)
  | delR (id : Nat)
deriving DecidableEq

/-- Events of the replace branch of `handleImportConfirm`
(lines 250-258): delete every existing route, then save every imported
route. -/
def replaceEvents (now : Nat) (store file : List Route) : List ImportEvent :=
  store.map (fun r => ImportEvent.delR r.id) ++
    file.map (fun r => ImportEvent.putR (routeToSave now r))

/-- Events of the new-only branch (lines 259-269): save exactly the
imported routes whose id does not already exist. -/
def newOnlyEvents (now : Nat) (store : List Route) : List Route → List ImportEvent
  | [] => []
  | r :: rest =>
      if (findRouteById store r.id).isSome then newOnlyEvents now store rest
      else ImportEvent.putR (routeToSave now r) :: newOnlyEvents now store rest

/-- Events of the merge branch (lines 270-296). -/
def mergeEvents (now : Nat) (orig : List Route) : List Route → List ImportEvent
  | [] => []
  | r :: rest =>
      match findRouteById orig r.id with
      | none => ImportEvent.putR (routeToSave now r) :: mergeEvents now orig rest
      | some ex =>
          if jsGtTime (effTime r) (effTime ex) then
            ImportEvent.putR (routeToSave now r) :: mergeEvents now orig rest
          else mergeEvents now orig rest

/-- Event trace of `handleImportConfirm` (RouteLibrary.jsx lines
224-328): a backup is produced first when the current store is non-empty,
then the selected mode branch runs its mutations. -/
def handleImportConfirmTrace (mode : ImportMode) (now : Nat)
    (store file : List Route) : List ImportEvent :=
  (if store.length > 0 then [ImportEvent.backup now store] else []) ++
    (match mode with
     | ImportMode.replace => replaceEvents now store file
     | ImportMode.newOnly => newOnlyEvents now store file
     | ImportMode.merge => mergeEvents now store file)

/-- Event trace of `importDirectly` (RouteLibrary.jsx lines 137-179),
the no-conflict path: backup when non-empty, then save every imported
route. -/
def importDirectlyTrace (now : Nat) (store file : List Route) : List ImportEvent :=
  (if store.length > 0 then [ImportEvent.backup now store] else []) ++
    file.map (fun r => ImportEvent.putR (routeToSave now r))

/-- An event that mutates the stored route set. -/
def isMutation : ImportEvent → Bool
  | ImportEvent.putR _ => true
  | ImportEvent.delR _ => true
  | ImportEvent.backup _ _ => false

/-! ## Waypoints, geocoding candidates and ambiguity resolution
(RouteEditor.jsx, AmbiguityResolution component) -/

/-- A waypoint. Coordinates are exact rationals standing for the JS
numbers; `(0, 0)` is the not-yet-geocoded sentinel. Fields the embedded
functions never read (`context`, `adjusted`, `originalCoordinates`) are
omitted. An absent JS `id` is modelled as the empty string. -/
structure Waypoint where
  id : String
  name : String
  lat : ℚ
  lng : ℚ
  order : Nat
  display_name : Option String
deriving DecidableEq

/-- A geocoding candidate (the fields the embedded functions read). -/
structure Candidate where
  lat : ℚ
  lng : ℚ
  display_name : String
deriving DecidableEq

/-- Character-list core of the JS `String.prototype.startsWith` test:
second argument is the pattern. -/
def charPrefixBool : List Char → List Char → Bool
  | _, [] => true
  | [], _ :: _ => false
  | c :: cs, d :: ds => c == d && charPrefixBool cs ds

/-- `s.startsWith(p)` on the underlying character lists. -/
def strStarts (s p : String) : Bool :=
  charPrefixBool s.data p.data

/-- Fractional part padded to exactly 4 digits (helper of `toFixed4`). -/
def padFrac4 (n : Nat) : String :=
  let s := toString n
  String.mk (List.replicate (4 - s.length) '0') ++ s

/-- JS `Number.prototype.toFixed(4)` on an exact rational: round to 4
decimals and print with a sign and exactly 4 fractional digits. -/
def toFixed4 (q : ℚ) : String :=
  let n : Int := round (q * 10000)
  let a := n.natAbs
  (if n < 0 then "-" else "") ++ toString (a / 10000) ++ "." ++ padFrac4 (a % 10000)

/-- `AmbiguityResolution:handleManualSubmit` (unnamed part, lines 44-63):
parse the two coordinate fields (`none` models a NaN parse), reject
out-of-range values, otherwise emit a candidate labelled
`Manual: <lat>, <lng>` with 4-decimal formatting. -/
def handleManualSubmit (latIn lngIn : Option ℚ) : Option Candidate :=
  match latIn, lngIn with
  | some lat, some lng =>
      if lat < -90 ∨ lat > 90 ∨ lng < -180 ∨ lng > 180 then none
      else some { lat := lat, lng := lng,
                  display_name := "Manual: " ++ toFixed4 lat ++ ", " ++ toFixed4 lng }
  | _, _ => none

/-- The waypoint update step of `RouteEditor.jsx:handleAmbiguityResolve`
(lines 902-914): adopt the candidate coordinates and display label, and
adopt the label as the waypoint name unless the label is empty, starts
with `Manual:`, or equals the current name. -/
def resolveWaypointUpdate (wp : Waypoint) (cand : Candidate) : Waypoint :=
  let shouldUpdateName :=
    !(cand.display_name == "") && !(strStarts cand.display_name "Manual:") &&
      (cand.display_name != wp.name)
  { wp with
    lat := cand.lat, lng := cand.lng,
    display_name := some cand.display_name,
    name := if shouldUpdateName then cand.display_name else wp.name }

/-! ## Batch geocoding (RouteEditor.jsx:handleGeocodeWaypoints) -/

/-- JS `Array.prototype.findIndex`, with the -1 result modelled as
`none`. -/
def findIndexQ {α : Type} (p : α → Bool) : List α → Option Nat
  | [] => none
  | a :: rest => if p a then some 0 else (findIndexQ p rest).map (· + 1)

/-- The not-yet-geocoded sentinel test `wp.lat === 0 && wp.lng === 0`. -/
def isSentinel (wp : Waypoint) : Bool :=
  decide (wp.lat = 0) && decide (wp.lng = 0)

/-- The write-target predicate of the batch loop (RouteEditor.jsx line
818): same name and still at the sentinel. -/
def ungeoNamePred (n : String) (wp : Waypoint) : Bool :=
  decide (wp.name = n) && decide (wp.lat = 0) && decide (wp.lng = 0)

/-- The spread update applied on a single-candidate result: adopt the
candidate coordinates and display label, keep everything else. -/
def applyCandidate (wp : Waypoint) (c : Candidate) : Waypoint :=
  { wp with lat := c.lat, lng := c.lng, display_name := some c.display_name }

/-- `updatedWaypoints[j] = {...updatedWaypoints[j], ...}`. -/
def setWaypointAt : List Waypoint → Nat → Candidate → List Waypoint
  | [], _, _ => []
  | wp :: rest, 0, c => applyCandidate wp c :: rest
  | wp :: rest, j + 1, c => wp :: setWaypointAt rest j c

/-- The loop of `handleGeocodeWaypoints` (lines 816-870): iterate over the
ungeocoded snapshot; on a single candidate write it to the first
name-plus-sentinel match in the ORIGINAL waypoint list (the stale `waypoints`
state, not the updated copy) and continue; on zero or multiple candidates
(or a geocoder error, modelled as a non-singleton result) suspend the batch
and return the updates made so far. -/
def geocodeBatchGo (geo : String → List Candidate) (orig : List Waypoint) :
    List Waypoint → List Waypoint → List Waypoint
  | [], updated => updated
  | w :: rest, updated =>
    match geo w.name with
    | [c] =>
        match findIndexQ (ungeoNamePred w.name) orig with
        | some j => geocodeBatchGo geo orig rest (setWaypointAt updated j c)
        | none => geocodeBatchGo geo orig rest updated
    | _ => updated

/-- `RouteEditor.jsx:handleGeocodeWaypoints` (lines 802-875): run the
batch loop over the sentinel-filtered snapshot, starting from a copy of
the waypoint list. -/
def handleGeocodeWaypoints (geo : String → List Candidate)
    (waypoints : List Waypoint) : List Waypoint :=
  geocodeBatchGo geo waypoints (waypoints.filter isSentinel) waypoints

/-! ## Partial segment recalculation
(RouteEditor.jsx:handleRecalculateAffectedSegments) -/

/-- The data returned by a successful `calculateRoute` call. -/
structure SegmentData where
  polyline : List (ℚ × ℚ)
  distance : ℚ
deriving DecidableEq

/-- A stored route segment. -/
structure Segment where
  fromWaypointId : String
  toWaypointId : String
  polyline : List (ℚ × ℚ)
  distance : ℚ
deriving DecidableEq

/-- The geocoded filter of lines 1178-1186: both coordinates non-zero
(the `typeof` and `isNaN` guards hold trivially for rationals). -/
def isGeocoded (wp : Waypoint) : Bool :=
  decide (wp.lat ≠ 0) && decide (wp.lng ≠ 0)

/-- `from.id || from.order.toString()` (lines 1241-1242); an absent id is
the empty string and `order` is always present in the embedding, so the
final positional fallback is unreachable. -/
def effId (wp : Waypoint) : String :=
  if wp.id = "" then toString wp.order else wp.id

/-- The id pair of a segment. -/
def segPair (s : Segment) : String × String :=
  (s.fromWaypointId, s.toWaypointId)

/-- The id pair of the consecutive geocoded waypoints at index `i`. -/
def pairAt (gw : List Waypoint) (i : Nat) : Option (String × String) :=
  match gw.get? i, gw.get? (i + 1) with
  | some a, some b => some (effId a, effId b)
  | _, _ => none

/-- Lines 1194-1197: locate the edited waypoint inside the geocoded list
by mapping each geocoded waypoint back to the first original waypoint with
the same id (or same order and name) and comparing its position with the
edited index. -/
def findGeocodedIndex (waypoints gw : List Waypoint) (c : Nat) : Option Nat :=
  findIndexQ (fun wp =>
    match waypoints.find? (fun w => decide (w.id = wp.id) ||
        (decide (w.order = wp.order) && decide (w.name = wp.name))) with
    | some ow => decide (List.indexOf ow waypoints = c)
    | none => false) gw

/-- JS `list.splice(i, 0, x)`: insert `x` at index `i`, clamping the
index to the list length (an out-of-range index appends). -/
def spliceInsert : List Segment → Nat → Segment → List Segment
  | l, 0, x => x :: l
  | [], _ + 1, x => [x]
  | s :: rest, m + 1, x => s :: spliceInsert rest m x

/-- One iteration of the recalculation loop (lines 1227-1268): route the
pair `(gw[i], gw[i+1])`; on failure leave the list unchanged; on success
replace the first segment with the matching id pair, or splice the new
segment in at index `i`. -/
def recalcStep (routeFn : Waypoint → Waypoint → Option SegmentData)
    (gw : List Waypoint) (segs : List Segment) (i : Nat) : List Segment :=
  match gw.get? i, gw.get? (i + 1) with
  | some wfrom, some wto =>
      match routeFn wfrom wto with
      | some data =>
          let fromId := effId wfrom
          let toId := effId wto
          let newSegment : Segment :=
            { fromWaypointId := fromId, toWaypointId := toId,
              polyline := data.polyline, distance := data.distance }
          match findIndexQ (fun s => decide (s.fromWaypointId = fromId) &&
              decide (s.toWaypointId = toId)) segs with
          | some m => segs.set m newSegment
          | none => spliceInsert segs i newSegment
      | none => segs
  | _, _ => segs

/-- The loop index range of lines 1206-1208: from
`max(0, geocodedIndex - 1)` to `min(gw.length - 2, geocodedIndex)`. -/
def affectedIdx (gw : List Waypoint) (g : Nat) : List Nat :=
  List.range' (g - 1) (min (gw.length - 2) g - (g - 1) + 1)

/-- `RouteEditor.jsx:handleRecalculateAffectedSegments` (lines
1176-1290). `none` models the two early exits that do not produce an
updated segment list here (fewer than 2 geocoded waypoints, and the
fall back to full recalculation when the edited waypoint is not found in
the geocoded list). -/
def handleRecalculateAffectedSegments
    (routeFn : Waypoint → Waypoint → Option SegmentData)
    (waypoints : List Waypoint) (segments : List Segment)
    (changedWaypointIndex : Nat) : Option (List Segment) :=
  let gw := waypoints.filter isGeocoded
  if gw.length < 2 then none
  else
    match findGeocodedIndex waypoints gw changedWaypointIndex with
    | none => none
    | some g =>
        if min (gw.length - 2) g < g - 1 then some segments
        else some ((affectedIdx gw g).foldl (recalcStep routeFn gw) segments)

/-- The pair index of a segment relative to the geocoded list: the `i`
with `pairAt gw i = (fromWaypointId, toWaypointId)`, the position the
spec ordering assigns to the segment. -/
def segPairIdx (gw : List Waypoint) (s : Segment) : Option Nat :=
  findIndexQ (fun i => pairAt gw i == some (segPair s)) (List.range gw.length)

/-- Concrete fixture: seven geocoded waypoints `a..g`. -/
def cexWaypoints : List Waypoint :=
  [{ id := "a", name := "A", lat := 1, lng := 1, order := 0, display_name := none },
   { id := "b", name := "B", lat := 2, lng := 1, order := 1, display_name := none },
   { id := "c", name := "C", lat := 3, lng := 1, order := 2, display_name := none },
   { id := "d", name := "D", lat := 4, lng := 1, order := 3, display_name := none },
   { id := "e", name := "E", lat := 5, lng := 1, order := 4, display_name := none },
   { id := "f", name := "F", lat := 6, lng := 1, order := 5, display_name := none },
   { id := "g", name := "G", lat := 7, lng := 1, order := 6, display_name := none }]

/-- Concrete fixture: only the first and last waypoint pairs have stored
segments (the intermediate routing calls failed earlier). -/
def cexSegments : List Segment :=
  [{ fromWaypointId := "a", toWaypointId := "b", polyline := [], distance := 1 },
   { fromWaypointId := "f", toWaypointId := "g", polyline := [], distance := 1 }]

/-- Concrete fixture: a routing oracle that always succeeds. -/
def cexRoute : Waypoint → Waypoint → Option SegmentData :=
  fun _ _ => some { polyline := [], distance := 1 }

/-! ## Routable-coordinate fallback search -/

/-- Modelled from the spec: the probe loop of `findRoutableCoordinate`
(`openRouteService.js`), which is not under src — only its callers, the
repository SPEC.md and the implementation plan describe it. Starting at
`step = stepSize`, probe while `step <= maxSearch`, incrementing by
`stepSize`; `fuel` bounds the recursion depth (the real loop terminates
because the step grows). Returns the list of probed distances from B. -/
def fallbackProbes (stepSize maxSearch : ℚ) : Nat → ℚ → List ℚ
  | 0, _ => []
  | f + 1, step =>
      if step ≤ maxSearch then step :: fallbackProbes stepSize maxSearch f (step + stepSize)
      else []

/-- Modelled from the spec: try the probes in order; on the first distance
whose candidate (given by `pointFn`, standing for
`calculatePointOnLine(A, B, ·)`) routes successfully, return the
candidate, its distance from B and the number of attempts. -/
def fallbackSearchGo (routeOk : ℚ × ℚ → Bool) (pointFn : ℚ → ℚ × ℚ) :
    List ℚ → Nat → Option ((ℚ × ℚ) × ℚ × Nat)
  | [], _ => none
  | p :: rest, attempts =>
      if routeOk (pointFn p) then some (pointFn p, p, attempts + 1)
      else fallbackSearchGo routeOk pointFn rest (attempts + 1)

/-- Modelled from the spec: `findRoutableCoordinate(from, to, stepSize)`
with `d` standing for `distanceMeters(A, B)` and `maxSearch = d / 2`. -/
def findRoutableCoordinate (routeOk : ℚ × ℚ → Bool) (pointFn : ℚ → ℚ × ℚ)
    (d stepSize : ℚ) (fuel : Nat) : Option ((ℚ × ℚ) × ℚ × Nat) :=
  fallbackSearchGo routeOk pointFn (fallbackProbes stepSize (d / 2) fuel stepSize) 0

/-! ## Theorems -/

theorem sanitizeAux_length (prev : Int) (l : List Int) :
    (sanitizeAux prev l).length = l.length + 1 := by
  induction l generalizing prev with
  | nil => rfl
  | cons d rest ih => simp [sanitizeAux, ih]

theorem sanitizeSegmentDays_length (l : List Int) :
    (sanitizeSegmentDays l).length = l.length := by
  cases l with
  | nil => rfl
  | cons d rest => simp [sanitizeSegmentDays, sanitizeAux_length]

theorem sanitizeAux_head (prev : Int) (l : List Int) :
    (sanitizeAux prev l).head? = some prev := by
  cases l <;> rfl

theorem sanitizeAux_eq_cons (prev : Int) (l : List Int) :
    ∃ t, sanitizeAux prev l = prev :: t := by
  cases l with
  | nil => exact ⟨[], rfl⟩
  | cons d rest => exact ⟨sanitizeAux (max d prev) rest, rfl⟩

theorem sanitizeAux_chain (prev : Int) (l : List Int) :
    List.Chain' (· ≤ ·) (sanitizeAux prev l) := by
  induction l generalizing prev with
  | nil => simp [sanitizeAux]
  | cons d rest ih =>
      simp only [sanitizeAux]
      rw [List.chain'_cons']
      refine ⟨?_, ih (max d prev)⟩
      intro y hy
      rw [sanitizeAux_head] at hy
      cases hy
      exact le_max_right d prev

theorem sanitizeAux_ge (prev : Int) (l : List Int) (b : Int) (hb : b ≤ prev) :
    ∀ x ∈ sanitizeAux prev l, b ≤ x := by
  induction l generalizing prev with
  | nil =>
      intro x hx
      simp [sanitizeAux] at hx
      omega
  | cons d rest ih =>
      intro x hx
      simp only [sanitizeAux, List.mem_cons] at hx
      rcases hx with rfl | hx
      · exact hb
      · exact ih (max d prev) (le_trans hb (le_max_right d prev)) x hx

theorem sanitizeSegmentDays_invariant (l : List Int) :
    DaysInvariant (sanitizeSegmentDays l) := by
  cases l with
  | nil =>
      constructor
      · intro h; simp [sanitizeSegmentDays] at h
      · simp [sanitizeSegmentDays]
  | cons d rest =>
      constructor
      · intro h
        obtain ⟨t, ht⟩ := sanitizeAux_eq_cons (max 1 d) rest
        have hs : sanitizeSegmentDays (d :: rest) = max 1 d :: t := ht
        rw [List.get_of_eq hs]
        simp
      · simpa [sanitizeSegmentDays] using sanitizeAux_chain (max 1 d) rest

theorem defaultSegmentDays_invariant (n : Nat) (existing : Option (List Int)) :
    DaysInvariant (defaultSegmentDays n existing) := by
  unfold defaultSegmentDays
  split
  · constructor
    · intro h; simp at h
    · simp
  · cases existing with
    | none => exact sanitizeSegmentDays_invariant _
    | some ex =>
        simp only
        split
        · exact sanitizeSegmentDays_invariant _
        · exact sanitizeSegmentDays_invariant _

theorem handleSegmentDayChange_length (days : List Int) (i : Nat) (v : Int) :
    (handleSegmentDayChange days i v).length = days.length := by
  simp [handleSegmentDayChange]

theorem getD_eq_get (l : List Int) (j : Nat) (h : j < l.length) :
    l.getD j 1 = l.get ⟨j, h⟩ := by
  simp [List.getD_eq_getElem?_getD, List.getElem?_eq_getElem h]

theorem handleSegmentDayChange_get (days : List Int) (i : Nat) (v : Int)
    (j : Nat) (h : j < (handleSegmentDayChange days i v).length) :
    (handleSegmentDayChange days i v).get ⟨j, h⟩ =
      (if j < i then days.getD j 1
       else if j = i then max (if i = 0 then 1 else days.getD (i - 1) 1) (min v 999)
       else max (days.getD j 1) (max (if i = 0 then 1 else days.getD (i - 1) 1) (min v 999))) := by
  have hj : j < days.length := by
    simpa [handleSegmentDayChange_length] using h
  simp [handleSegmentDayChange]

theorem chain'_getD (l : List Int) (hc : List.Chain' (· ≤ ·) l)
    (k : Nat) (hk : k + 1 < l.length) : l.getD k 1 ≤ l.getD (k + 1) 1 := by
  rw [getD_eq_get l k (by omega), getD_eq_get l (k + 1) hk]
  have := List.chain'_iff_get.mp hc k (by omega)
  exact this

theorem handleSegmentDayChange_invariant (days : List Int) (i : Nat) (v : Int)
    (hi : i < days.length) (hd : DaysInvariant days) :
    DaysInvariant (handleSegmentDayChange days i v) := by
  obtain ⟨h1, hc⟩ := hd
  constructor
  · intro h0
    rw [handleSegmentDayChange_get]
    by_cases hi0 : i = 0
    · subst hi0
      simp only [Nat.lt_irrefl, if_false, if_pos rfl]
      exact le_max_left 1 (min v 999)
    · have hpos : (0 : Nat) < i := Nat.pos_of_ne_zero hi0
      rw [if_pos hpos]
      rw [getD_eq_get days 0 (by omega)]
      exact h1 (by omega)
  · rw [List.chain'_iff_get]
    intro j hj
    have hlen := handleSegmentDayChange_length days i v
    have hjl : j + 1 < days.length := by omega
    rw [handleSegmentDayChange_get, handleSegmentDayChange_get]
    have hadj : days.getD j 1 ≤ days.getD (j + 1) 1 := chain'_getD days hc j hjl
    by_cases h1lt : j + 1 < i
    · rw [if_pos (by omega : j < i), if_pos h1lt]
      exact hadj
    · by_cases h1e : j + 1 = i
      · rw [if_pos (by omega : j < i), if_neg h1lt, if_pos h1e]
        have hne : ¬ i = 0 := by omega
        have hji : j = i - 1 := by omega
        rw [if_neg hne, hji]
        exact le_max_left _ _
      · by_cases hje : j = i
        · rw [if_neg (by omega : ¬ j < i), if_pos hje, if_neg h1lt, if_neg h1e]
          exact le_max_right _ _
        · rw [if_neg (by omega : ¬ j < i), if_neg hje, if_neg h1lt, if_neg h1e]
          exact max_le_max hadj (le_refl _)

/-- C4: after every mutation of `segmentDays` — sanitization itself (applied
after loading a stored route), the default assignment applied when segments
are (re)computed, and a user edit of a single segment day — the result
satisfies `segmentDays[0] >= 1` and `segmentDays[i] >= segmentDays[i-1]`. -/
theorem segmentDays_invariant_all_mutations :
    (∀ l : List Int, DaysInvariant (sanitizeSegmentDays l)) ∧
    (∀ (n : Nat) (existing : Option (List Int)),
      DaysInvariant (defaultSegmentDays n existing)) ∧
    (∀ (days : List Int) (i : Nat) (v : Int), i < days.length →
      DaysInvariant days → DaysInvariant (handleSegmentDayChange days i v)) :=
  ⟨sanitizeSegmentDays_invariant, defaultSegmentDays_invariant,
    handleSegmentDayChange_invariant⟩

/-- Witness for C4 at a concrete input. -/
theorem segmentDays_invariant_all_mutations_witness :
    DaysInvariant (handleSegmentDayChange [1, 2, 2, 4] 2 7) :=
  segmentDays_invariant_all_mutations.2.2 [1, 2, 2, 4] 2 7 (by decide)
    ⟨fun _ => by simp, by simp [List.chain'_cons]⟩

/-- C7: a user edit of segment `i` to value `v` stores `v` clamped to
`[segmentDays[i-1] (or 1 when i = 0), 999]`, leaves earlier entries
unchanged, and raises every later entry to at least the clamped value;
in particular the 4-segment default `[1,2,3,4]` with segment 1 set to
day 5 yields `[1,5,5,5]`. -/
theorem handleSegmentDayChange_spec :
    (∀ (days : List Int) (i : Nat) (v : Int), i < days.length →
      ((handleSegmentDayChange days i v).getD i 1 =
          max (if i = 0 then 1 else days.getD (i - 1) 1) (min v 999)) ∧
      (∀ j, j < i → (handleSegmentDayChange days i v).getD j 1 = days.getD j 1) ∧
      (∀ j, i < j → j < days.length →
        (handleSegmentDayChange days i v).getD j 1 =
          max (days.getD j 1) (max (if i = 0 then 1 else days.getD (i - 1) 1) (min v 999)) ∧
        max (if i = 0 then 1 else days.getD (i - 1) 1) (min v 999) ≤
          (handleSegmentDayChange days i v).getD j 1) ∧
      (handleSegmentDayChange days i v).length = days.length) ∧
    handleSegmentDayChange (defaultSegmentDays 4 none) 1 5 = [1, 5, 5, 5] := by
  constructor
  · intro days i v hi
    have hlen := handleSegmentDayChange_length days i v
    have hget : ∀ j, j < days.length →
        (handleSegmentDayChange days i v).getD j 1 =
          (if j < i then days.getD j 1
           else if j = i then max (if i = 0 then 1 else days.getD (i - 1) 1) (min v 999)
           else max (days.getD j 1)
             (max (if i = 0 then 1 else days.getD (i - 1) 1) (min v 999))) := by
      intro j hj
      rw [getD_eq_get _ j (by omega), handleSegmentDayChange_get]
    refine ⟨?_, ?_, ?_, hlen⟩
    · rw [hget i hi]
      simp
    · intro j hji
      rw [hget j (by omega)]
      rw [if_pos hji]
    · intro j hij hj
      rw [hget j hj, if_neg (by omega), if_neg (by omega)]
      exact ⟨rfl, le_max_right _ _⟩
  · decide

/-- Witness for C7 at the concrete scenario input. -/
theorem handleSegmentDayChange_spec_witness :
    (handleSegmentDayChange [1, 2, 3, 4] 1 5).getD 1 1 =
      max (([1, 2, 3, 4] : List Int).getD 0 1) (min 5 999) :=
  ((handleSegmentDayChange_spec.1 [1, 2, 3, 4] 1 5 (by decide)).1).trans (by decide)

theorem findRouteById_putRoute_same (store : List Route) (x : Route) :
    findRouteById (putRoute store x) x.id = some x := by
  induction store with
  | nil => simp [putRoute, findRouteById]
  | cons s rest ih =>
      by_cases h : s.id = x.id
      · simp [putRoute, h, findRouteById]
      · simpa [putRoute, h, findRouteById] using ih

theorem findRouteById_putRoute_other (store : List Route) (x : Route) (i : Nat)
    (h : i ≠ x.id) : findRouteById (putRoute store x) i = findRouteById store i := by
  have hxi : ¬ x.id = i := fun he => h he.symm
  induction store with
  | nil => simp [putRoute, findRouteById, hxi]
  | cons s rest ih =>
      by_cases hs : s.id = x.id
      · have hsi : ¬ s.id = i := by rw [hs]; exact hxi
        simp [putRoute, hs, findRouteById, hxi, hsi]
      · by_cases hsi : s.id = i
        · simp only [putRoute, if_neg hs]
          simp [findRouteById, hsi]
        · simp only [putRoute, if_neg hs]
          simpa [findRouteById, hsi] using ih

theorem routeToSave_id (now : Nat) (r : Route) : (routeToSave now r).id = r.id := rfl

theorem findRouteById_saveRoute_same (now : Nat) (store : List Route) (r : Route) :
    findRouteById (saveRoute now store r) r.id = some (routeToSave now r) := by
  have := findRouteById_putRoute_same store (routeToSave now r)
  rwa [routeToSave_id] at this

theorem findRouteById_saveRoute_other (now : Nat) (store : List Route) (r : Route)
    (i : Nat) (h : i ≠ r.id) :
    findRouteById (saveRoute now store r) i = findRouteById store i :=
  findRouteById_putRoute_other store (routeToSave now r) i (by rwa [routeToSave_id])

theorem mergeImportGo_find_frame (now : Nat) (orig : List Route) :
    ∀ (rest : List Route) (store : List Route) (a u s : Nat) (i : Nat),
      (∀ e ∈ rest, e.id ≠ i) →
      findRouteById (mergeImportGo now orig rest store a u s).1 i =
        findRouteById store i := by
  intro rest
  induction rest with
  | nil => intro store a u s i _; rfl
  | cons r rest ih =>
      intro store a u s i hne
      have hr : r.id ≠ i := hne r (List.mem_cons_self r rest)
      have hrest : ∀ e ∈ rest, e.id ≠ i := fun e he => hne e (List.mem_cons_of_mem r he)
      cases hfind : findRouteById orig r.id with
      | none =>
          simp only [mergeImportGo, hfind]
          rw [ih _ _ _ _ i hrest]
          exact findRouteById_saveRoute_other now store r i (Ne.symm hr)
      | some ex =>
          by_cases hgt : jsGtTime (effTime r) (effTime ex) = true
          · simp only [mergeImportGo, hfind, hgt, if_true]
            rw [ih _ _ _ _ i hrest]
            exact findRouteById_saveRoute_other now store r i (Ne.symm hr)
          · rw [Bool.not_eq_true] at hgt
            simp only [mergeImportGo, hfind, hgt, Bool.false_eq_true, if_false]
            rw [ih _ _ _ _ i hrest]

theorem mergeImportGo_entry (now : Nat) (orig : List Route) :
    ∀ (rest : List Route) (store : List Route) (a u s : Nat),
      (rest.map Route.id).Nodup →
      (∀ e ∈ rest, findRouteById store e.id = findRouteById orig e.id) →
      ∀ e ∈ rest,
        findRouteById (mergeImportGo now orig rest store a u s).1 e.id =
          mergeOutcome now orig e := by
  intro rest
  induction rest with
  | nil => intro store a u s _ _ e he; cases he
  | cons r rest ih =>
      intro store a u s hnd hsync e he
      have hpair : (∀ x ∈ rest, ¬ x.id = r.id) ∧ (rest.map Route.id).Nodup := by
        simpa using hnd
      have hnd' : (rest.map Route.id).Nodup := hpair.2
      have hrne : ∀ e' ∈ rest, e'.id ≠ r.id := fun e' he' => hpair.1 e' he'
      rcases List.mem_cons.mp he with rfl | hmem
      · -- the processed entry itself: take the step, then the frame lemma
        have hsr : findRouteById store e.id = findRouteById orig e.id :=
          hsync e (List.mem_cons_self e rest)
        cases hfind : findRouteById orig e.id with
        | none =>
            simp only [mergeImportGo, hfind]
            rw [mergeImportGo_find_frame now orig rest _ _ _ _ e.id hrne]
            rw [findRouteById_saveRoute_same]
            simp [mergeOutcome, hfind]
        | some ex =>
            by_cases hgt : jsGtTime (effTime e) (effTime ex) = true
            · simp only [mergeImportGo, hfind, hgt, if_true]
              rw [mergeImportGo_find_frame now orig rest _ _ _ _ e.id hrne]
              rw [findRouteById_saveRoute_same]
              simp [mergeOutcome, hfind, hgt]
            · rw [Bool.not_eq_true] at hgt
              simp only [mergeImportGo, hfind, hgt, Bool.false_eq_true, if_false]
              rw [mergeImportGo_find_frame now orig rest _ _ _ _ e.id hrne]
              rw [hsr, hfind]
              simp [mergeOutcome, hfind, hgt]
      · -- an entry further down: the step touches only r.id
        cases hfind : findRouteById orig r.id with
        | none =>
            simp only [mergeImportGo, hfind]
            refine ih (saveRoute now store r) _ _ _ hnd' ?_ e hmem
            intro e' he'
            rw [findRouteById_saveRoute_other now store r e'.id (hrne e' he')]
            exact hsync e' (List.mem_cons_of_mem r he')
        | some ex =>
            by_cases hgt : jsGtTime (effTime r) (effTime ex) = true
            · simp only [mergeImportGo, hfind, hgt, if_true]
              refine ih (saveRoute now store r) _ _ _ hnd' ?_ e hmem
              intro e' he'
              rw [findRouteById_saveRoute_other now store r e'.id (hrne e' he')]
              exact hsync e' (List.mem_cons_of_mem r he')
            · rw [Bool.not_eq_true] at hgt
              simp only [mergeImportGo, hfind, hgt, Bool.false_eq_true, if_false]
              refine ih store _ _ _ hnd' ?_ e hmem
              intro e' he'
              exact hsync e' (List.mem_cons_of_mem r he')

theorem mergeImportGo_counts (now : Nat) (orig : List Route) :
    ∀ (rest : List Route) (store : List Route) (a u s : Nat),
      (mergeImportGo now orig rest store a u s).2.1 = a + addedCount orig rest ∧
      (mergeImportGo now orig rest store a u s).2.2.1 = u + updatedCount orig rest ∧
      (mergeImportGo now orig rest store a u s).2.2.2 = s + skippedCount orig rest := by
  intro rest
  induction rest with
  | nil => intro store a u s; simp [mergeImportGo, addedCount, updatedCount, skippedCount]
  | cons r rest ih =>
      intro store a u s
      cases hfind : findRouteById orig r.id with
      | none =>
          obtain ⟨h1, h2, h3⟩ := ih (saveRoute now store r) (a + 1) u s
          refine ⟨?_, ?_, ?_⟩ <;>
            simp [mergeImportGo, h1, h2, h3, addedCount, updatedCount, skippedCount,
              List.filter_cons, hfind] <;> omega
      | some ex =>
          by_cases hgt : jsGtTime (effTime r) (effTime ex) = true
          · obtain ⟨h1, h2, h3⟩ := ih (saveRoute now store r) a (u + 1) s
            refine ⟨?_, ?_, ?_⟩ <;>
              simp [mergeImportGo, h1, h2, h3, addedCount, updatedCount, skippedCount,
                List.filter_cons, hfind, hgt] <;> omega
          · rw [Bool.not_eq_true] at hgt
            obtain ⟨h1, h2, h3⟩ := ih store a u (s + 1)
            refine ⟨?_, ?_, ?_⟩ <;>
              simp [mergeImportGo, h1, h2, h3, addedCount, updatedCount, skippedCount,
                List.filter_cons, hfind, hgt] <;> omega

theorem effTime_routeToSave (now : Nat) (r : Route) :
    effTime (routeToSave now r) = some now := rfl

/-- C6 counterexample: `saveRoute` called with a route whose `updatedAt`
is 5 at save time 10 stores `updatedAt = 10`, not the caller-supplied 5. -/
theorem saveRoute_counterexample :
    findRouteById
        (saveRoute 10 [] { id := 1, updatedAt := some 5, createdAt := some 3, payload := 0 }) 1 =
      some { id := 1, updatedAt := some 10, createdAt := some 3, payload := 0 } ∧
    (some 10 : Option Nat) ≠ some 5 := by
  constructor
  · rfl
  · decide

/-- C6 (amended): the put operation of the persistence gateway is an
upsert keyed by id that preserves the content and `createdAt`
(defaulting it to the save time when absent), but stamps the stored
`updatedAt` with the save time instead of keeping the caller-supplied
value. -/
theorem saveRoute_stamps_updatedAt (now : Nat) (store : List Route) (r : Route) :
    ∃ q, findRouteById (saveRoute now store r) r.id = some q ∧
      q.updatedAt = some now ∧
      q.id = r.id ∧ q.payload = r.payload ∧
      q.createdAt = some (r.createdAt.getD now) :=
  ⟨routeToSave now r, findRouteById_saveRoute_same now store r, rfl, rfl, rfl, rfl⟩

/-- C2: merge-mode import per-entry behavior — a route with a new id is
inserted; for an existing id the fallback timestamps are compared and the
imported entry wins only when strictly newer (ties keep the local copy);
the added / updated / skipped counters count exactly those cases. -/
theorem mergeImport_spec (now : Nat) (store file : List Route)
    (hnd : (file.map Route.id).Nodup) :
    (∀ e ∈ file,
      (findRouteById store e.id = none →
        findRouteById (mergeImport now store file).1 e.id = some (routeToSave now e)) ∧
      (∀ ex te tex, findRouteById store e.id = some ex →
        effTime e = some te → effTime ex = some tex →
          (tex < te →
            findRouteById (mergeImport now store file).1 e.id = some (routeToSave now e)) ∧
          (te ≤ tex →
            findRouteById (mergeImport now store file).1 e.id = some ex))) ∧
    (mergeImport now store file).2.1 = addedCount store file ∧
    (mergeImport now store file).2.2.1 = updatedCount store file ∧
    (mergeImport now store file).2.2.2 = skippedCount store file := by
  have hentry := mergeImportGo_entry now store file store 0 0 0 hnd (fun e _ => rfl)
  have hcounts := mergeImportGo_counts now store file store 0 0 0
  refine ⟨?_, by simpa [mergeImport] using hcounts.1,
    by simpa [mergeImport] using hcounts.2.1,
    by simpa [mergeImport] using hcounts.2.2⟩
  intro e he
  have h := hentry e he
  constructor
  · intro hnone
    simp only [mergeImport]
    rw [h]
    simp [mergeOutcome, hnone]
  · intro ex te tex hex hte htex
    constructor
    · intro hlt
      simp only [mergeImport]
      rw [h]
      simp [mergeOutcome, hex, jsGtTime, hte, htex, hlt]
    · intro hle
      have hnlt : ¬ tex < te := by omega
      simp only [mergeImport]
      rw [h]
      simp [mergeOutcome, hex, jsGtTime, hte, htex, hnlt]

/-- Witness for C2 at a concrete store and file. -/
theorem mergeImport_spec_witness :
    (mergeImport 100
        [{ id := 2, updatedAt := some 4, createdAt := some 1, payload := 33 }]
        [{ id := 1, updatedAt := some 5, createdAt := some 1, payload := 77 },
         { id := 2, updatedAt := some 9, createdAt := none, payload := 88 }]).2.1 =
      addedCount
        [{ id := 2, updatedAt := some 4, createdAt := some 1, payload := 33 }]
        [{ id := 1, updatedAt := some 5, createdAt := some 1, payload := 77 },
         { id := 2, updatedAt := some 9, createdAt := none, payload := 88 }] :=
  (mergeImport_spec 100
    [{ id := 2, updatedAt := some 4, createdAt := some 1, payload := 33 }]
    [{ id := 1, updatedAt := some 5, createdAt := some 1, payload := 77 },
     { id := 2, updatedAt := some 9, createdAt := none, payload := 88 }]
    (by decide)).2.1

theorem mergeImportGo_all_skip (now : Nat) (orig : List Route) :
    ∀ (rest : List Route) (store : List Route) (a u s : Nat),
      (∀ e ∈ rest, ∃ ex, findRouteById orig e.id = some ex ∧
        jsGtTime (effTime e) (effTime ex) = false) →
      mergeImportGo now orig rest store a u s = (store, a, u, s + rest.length) := by
  intro rest
  induction rest with
  | nil => intro store a u s _; simp [mergeImportGo]
  | cons r rest ih =>
      intro store a u s h
      obtain ⟨ex, hex, hgt⟩ := h r (List.mem_cons_self r rest)
      have hrest : ∀ e ∈ rest, ∃ ex, findRouteById orig e.id = some ex ∧
          jsGtTime (effTime e) (effTime ex) = false :=
        fun e he => h e (List.mem_cons_of_mem r he)
      simp only [mergeImportGo, hex, hgt, Bool.false_eq_true, if_false]
      rw [ih store a u (s + 1) hrest]
      have h4 : s + 1 + rest.length = s + (r :: rest).length := by
        simp [List.length_cons]; omega
      rw [h4]

/-- C3: importing the same file again in merge mode after a completed
first merge import (whose save time is at least every timestamp in the
file) leaves the store unchanged and reports zero added, zero updated,
and every file entry skipped. -/
theorem mergeImport_idempotent (t1 t2 : Nat) (store file : List Route)
    (hnd : (file.map Route.id).Nodup)
    (hle : ∀ e ∈ file, ∀ te, effTime e = some te → te ≤ t1) :
    mergeImport t2 (mergeImport t1 store file).1 file =
      ((mergeImport t1 store file).1, 0, 0, file.length) := by
  have hentry := mergeImportGo_entry t1 store file store 0 0 0 hnd (fun e _ => rfl)
  have hskip : ∀ e ∈ file,
      ∃ ex, findRouteById (mergeImport t1 store file).1 e.id = some ex ∧
        jsGtTime (effTime e) (effTime ex) = false := by
    intro e he
    have h : findRouteById (mergeImport t1 store file).1 e.id =
        mergeOutcome t1 store e := hentry e he
    have hjs : jsGtTime (effTime e) (some t1) = false := by
      cases hte : effTime e with
      | none => rfl
      | some te =>
          have := hle e he te hte
          simp [jsGtTime]
          omega
    cases hof : findRouteById store e.id with
    | none =>
        refine ⟨routeToSave t1 e, ?_, ?_⟩
        · rw [h]; simp [mergeOutcome, hof]
        · rw [effTime_routeToSave]; exact hjs
    | some ex =>
        by_cases hgt : jsGtTime (effTime e) (effTime ex) = true
        · refine ⟨routeToSave t1 e, ?_, ?_⟩
          · rw [h]; simp [mergeOutcome, hof, hgt]
          · rw [effTime_routeToSave]; exact hjs
        · rw [Bool.not_eq_true] at hgt
          refine ⟨ex, ?_, hgt⟩
          rw [h]; simp [mergeOutcome, hof, hgt]
  have hrun := mergeImportGo_all_skip t2 (mergeImport t1 store file).1 file
    (mergeImport t1 store file).1 0 0 0 hskip
  simpa [mergeImport] using hrun

/-- Witness for C3 at a concrete store and file. -/
theorem mergeImport_idempotent_witness :
    mergeImport 200
        (mergeImport 100
          [{ id := 2, updatedAt := some 4, createdAt := some 1, payload := 33 }]
          [{ id := 1, updatedAt := some 5, createdAt := some 1, payload := 77 },
           { id := 2, updatedAt := some 9, createdAt := none, payload := 88 }]).1
        [{ id := 1, updatedAt := some 5, createdAt := some 1, payload := 77 },
         { id := 2, updatedAt := some 9, createdAt := none, payload := 88 }] =
      ((mergeImport 100
          [{ id := 2, updatedAt := some 4, createdAt := some 1, payload := 33 }]
          [{ id := 1, updatedAt := some 5, createdAt := some 1, payload := 77 },
           { id := 2, updatedAt := some 9, createdAt := none, payload := 88 }]).1,
        0, 0, 2) :=
  mergeImport_idempotent 100 200
    [{ id := 2, updatedAt := some 4, createdAt := some 1, payload := 33 }]
    [{ id := 1, updatedAt := some 5, createdAt := some 1, payload := 77 },
     { id := 2, updatedAt := some 9, createdAt := none, payload := 88 }]
    (by decide)
    (by intro e he te hte; fin_cases he <;> simp [effTime] at hte <;> omega)

theorem replaceEvents_mutation (now : Nat) (store file : List Route) :
    ∀ e ∈ replaceEvents now store file, isMutation e = true := by
  intro e he
  rcases List.mem_append.mp he with h | h <;>
    · obtain ⟨r, _, rfl⟩ := List.mem_map.mp h
      rfl

theorem newOnlyEvents_mutation (now : Nat) (store : List Route) :
    ∀ (file : List Route), ∀ e ∈ newOnlyEvents now store file, isMutation e = true := by
  intro file
  induction file with
  | nil => intro e he; cases he
  | cons r rest ih =>
      intro e he
      by_cases h : (findRouteById store r.id).isSome
      · rw [newOnlyEvents, if_pos h] at he
        exact ih e he
      · rw [newOnlyEvents, if_neg h] at he
        rcases List.mem_cons.mp he with rfl | hm
        · rfl
        · exact ih e hm

theorem mergeEvents_mutation (now : Nat) (orig : List Route) :
    ∀ (file : List Route), ∀ e ∈ mergeEvents now orig file, isMutation e = true := by
  intro file
  induction file with
  | nil => intro e he; cases he
  | cons r rest ih =>
      intro e he
      cases hfind : findRouteById orig r.id with
      | none =>
          rw [mergeEvents, hfind] at he
          rcases List.mem_cons.mp he with rfl | hm
          · rfl
          · exact ih e hm
      | some ex =>
          by_cases hgt : jsGtTime (effTime r) (effTime ex) = true
          · simp only [mergeEvents, hfind, hgt, if_true] at he
            rcases List.mem_cons.mp he with rfl | hm
            · rfl
            · exact ih e hm
          · rw [Bool.not_eq_true] at hgt
            simp only [mergeEvents, hfind, hgt, Bool.false_eq_true, if_false] at he
            exact ih e he

/-- C8: for every import mode (and the no-conflict direct path), when at
least one local route exists the very first event is a timestamped backup
carrying the full current local route set — so it precedes every put and
delete — and everything after it is a mutation; when the local store is
empty no backup event occurs at all. -/
theorem import_backup_first (mode : ImportMode) (now : Nat) (store file : List Route) :
    (store ≠ [] →
      (handleImportConfirmTrace mode now store file).head? =
          some (ImportEvent.backup now store) ∧
      (importDirectlyTrace now store file).head? =
          some (ImportEvent.backup now store) ∧
      (∀ e ∈ (handleImportConfirmTrace mode now store file).tail, isMutation e = true) ∧
      (∀ e ∈ (importDirectlyTrace now store file).tail, isMutation e = true)) ∧
    (store = [] →
      (∀ e ∈ handleImportConfirmTrace mode now store file, isMutation e = true) ∧
      (∀ e ∈ importDirectlyTrace now store file, isMutation e = true)) := by
  constructor
  · intro hne
    have hlen : store.length > 0 := List.length_pos.mpr hne
    have hmode : ∀ e ∈ (match mode with
        | ImportMode.replace => replaceEvents now store file
        | ImportMode.newOnly => newOnlyEvents now store file
        | ImportMode.merge => mergeEvents now store file), isMutation e = true := by
      cases mode with
      | replace => exact replaceEvents_mutation now store file
      | newOnly => exact newOnlyEvents_mutation now store file
      | merge => exact mergeEvents_mutation now store file
    refine ⟨?_, ?_, ?_, ?_⟩
    · simp [handleImportConfirmTrace, if_pos hlen]
    · simp [importDirectlyTrace, if_pos hlen]
    · intro e he
      apply hmode
      simpa [handleImportConfirmTrace, if_pos hlen] using he
    · intro e he
      have : e ∈ file.map (fun r => ImportEvent.putR (routeToSave now r)) := by
        simpa [importDirectlyTrace, if_pos hlen] using he
      obtain ⟨r, _, rfl⟩ := List.mem_map.mp this
      rfl
  · intro hempty
    subst hempty
    constructor
    · intro e he
      have hmode : e ∈ (match mode with
          | ImportMode.replace => replaceEvents now [] file
          | ImportMode.newOnly => newOnlyEvents now [] file
          | ImportMode.merge => mergeEvents now [] file) := by
        simpa [handleImportConfirmTrace] using he
      cases mode with
      | replace => exact replaceEvents_mutation now [] file e hmode
      | newOnly => exact newOnlyEvents_mutation now [] file e hmode
      | merge => exact mergeEvents_mutation now [] file e hmode
    · intro e he
      have : e ∈ file.map (fun r => ImportEvent.putR (routeToSave now r)) := by
        simpa [importDirectlyTrace] using he
      obtain ⟨r, _, rfl⟩ := List.mem_map.mp this
      rfl

/-- Witness for C8 at a concrete non-empty store. -/
theorem import_backup_first_witness :
    (handleImportConfirmTrace ImportMode.merge 50
        [{ id := 2, updatedAt := some 4, createdAt := some 1, payload := 33 }]
        [{ id := 1, updatedAt := some 5, createdAt := some 1, payload := 77 }]).head? =
      some (ImportEvent.backup 50
        [{ id := 2, updatedAt := some 4, createdAt := some 1, payload := 33 }]) :=
  ((import_backup_first ImportMode.merge 50
      [{ id := 2, updatedAt := some 4, createdAt := some 1, payload := 33 }]
      [{ id := 1, updatedAt := some 5, createdAt := some 1, payload := 77 }]).1
    (by decide)).1

/-- C9: accepting a non-manual candidate adopts its full label as display
label and name; accepting a manual candidate (label starting `Manual:`)
changes only the coordinates and display label and keeps the typed name;
manual coordinates `(39.78, -89.65)` produce the label
`Manual: 39.7800, -89.6500` and leave the name `Springfield` intact. -/
theorem handleAmbiguityResolve_name_rule :
    (∀ (wp : Waypoint) (cand : Candidate),
      cand.display_name ≠ "" →
      strStarts cand.display_name "Manual:" = false →
      (resolveWaypointUpdate wp cand).display_name = some cand.display_name ∧
      (resolveWaypointUpdate wp cand).lat = cand.lat ∧
      (resolveWaypointUpdate wp cand).lng = cand.lng ∧
      (resolveWaypointUpdate wp cand).name = cand.display_name) ∧
    (∀ (wp : Waypoint) (cand : Candidate),
      strStarts cand.display_name "Manual:" = true →
      (resolveWaypointUpdate wp cand).name = wp.name ∧
      (resolveWaypointUpdate wp cand).display_name = some cand.display_name ∧
      (resolveWaypointUpdate wp cand).lat = cand.lat ∧
      (resolveWaypointUpdate wp cand).lng = cand.lng) ∧
    (∃ cand, handleManualSubmit (some (3978/100)) (some (-8965/100)) = some cand ∧
      cand.display_name = "Manual: 39.7800, -89.6500" ∧
      ∀ wp : Waypoint, wp.name = "Springfield" →
        (resolveWaypointUpdate wp cand).name = "Springfield" ∧
        (resolveWaypointUpdate wp cand).display_name =
          some "Manual: 39.7800, -89.6500") := by
  have hmanual : ∀ (wp : Waypoint) (cand : Candidate),
      strStarts cand.display_name "Manual:" = true →
      (resolveWaypointUpdate wp cand).name = wp.name ∧
      (resolveWaypointUpdate wp cand).display_name = some cand.display_name ∧
      (resolveWaypointUpdate wp cand).lat = cand.lat ∧
      (resolveWaypointUpdate wp cand).lng = cand.lng := by
    intro wp cand hst
    simp [resolveWaypointUpdate, hst]
  refine ⟨?_, hmanual, ?_⟩
  · intro wp cand hne hst
    have hbe : (cand.display_name == "") = false := by
      simpa using hne
    by_cases heq : cand.display_name = wp.name
    · simp [resolveWaypointUpdate, hbe, hst, heq]
    · have hbne : (cand.display_name != wp.name) = true := by
        simpa using heq
      simp [resolveWaypointUpdate, hbe, hst, hbne, heq]
  · have h1 : round ((3978/100 : ℚ) * 10000) = 397800 := by
      norm_num [round_eq]
    have h2 : round ((-8965/100 : ℚ) * 10000) = -896500 := by
      norm_num [round_eq]
    have ht1 : toFixed4 (3978/100 : ℚ) = "39.7800" := by
      simp only [toFixed4, h1]
      decide
    have ht2 : toFixed4 (-8965/100 : ℚ) = "-89.6500" := by
      simp only [toFixed4, h2]
      decide
    have hcond : ¬((3978/100 : ℚ) < -90 ∨ (3978/100 : ℚ) > 90 ∨
        (-8965/100 : ℚ) < -180 ∨ (-8965/100 : ℚ) > 180) := by
      norm_num
    have hm : handleManualSubmit (some (3978/100)) (some (-8965/100)) =
        some { lat := 3978/100, lng := -8965/100,
               display_name := "Manual: 39.7800, -89.6500" } := by
      simp only [handleManualSubmit, if_neg hcond, ht1, ht2]
      have hs : "Manual: " ++ "39.7800" ++ ", " ++ "-89.6500" =
          "Manual: 39.7800, -89.6500" := by decide
      rw [hs]
    refine ⟨_, hm, rfl, ?_⟩
    intro wp hname
    have hst : strStarts
        (Candidate.display_name
          { lat := 3978/100, lng := -8965/100,
            display_name := "Manual: 39.7800, -89.6500" }) "Manual:" = true := by
      decide
    have h := hmanual wp _ hst
    exact ⟨h.1.trans hname, h.2.1⟩

/-- Witness for C9 at a concrete waypoint and manual candidate. -/
theorem handleAmbiguityResolve_name_rule_witness :
    (resolveWaypointUpdate
        { id := "w1", name := "Springfield", lat := 0, lng := 0, order := 0,
          display_name := none }
        { lat := 39, lng := -89, display_name := "Manual: 39.0000, -89.0000" }).name =
      Waypoint.name
        { id := "w1", name := "Springfield", lat := 0, lng := 0, order := 0,
          display_name := none } ∧
    (resolveWaypointUpdate
        { id := "w1", name := "Springfield", lat := 0, lng := 0, order := 0,
          display_name := none }
        { lat := 39, lng := -89, display_name := "Manual: 39.0000, -89.0000" }).display_name =
      some (Candidate.display_name
        { lat := 39, lng := -89, display_name := "Manual: 39.0000, -89.0000" }) ∧
    (resolveWaypointUpdate
        { id := "w1", name := "Springfield", lat := 0, lng := 0, order := 0,
          display_name := none }
        { lat := 39, lng := -89, display_name := "Manual: 39.0000, -89.0000" }).lat =
      Candidate.lat
        { lat := 39, lng := -89, display_name := "Manual: 39.0000, -89.0000" } ∧
    (resolveWaypointUpdate
        { id := "w1", name := "Springfield", lat := 0, lng := 0, order := 0,
          display_name := none }
        { lat := 39, lng := -89, display_name := "Manual: 39.0000, -89.0000" }).lng =
      Candidate.lng
        { lat := 39, lng := -89, display_name := "Manual: 39.0000, -89.0000" } :=
  handleAmbiguityResolve_name_rule.2.1
    { id := "w1", name := "Springfield", lat := 0, lng := 0, order := 0,
      display_name := none }
    { lat := 39, lng := -89, display_name := "Manual: 39.0000, -89.0000" }
    (by decide)

theorem setWaypointAt_get?_ne :
    ∀ (l : List Waypoint) (j : Nat) (c : Candidate) (k : Nat), k ≠ j →
      (setWaypointAt l j c).get? k = l.get? k := by
  intro l
  induction l with
  | nil => intro j c k _; rfl
  | cons wp rest ih =>
      intro j c k hk
      cases j with
      | zero =>
          cases k with
          | zero => exact absurd rfl hk
          | succ k => rfl
      | succ j =>
          cases k with
          | zero => rfl
          | succ k =>
              simp only [setWaypointAt, List.get?]
              exact ih j c k (by omega)

theorem setWaypointAt_get?_eq :
    ∀ (l : List Waypoint) (j : Nat) (c : Candidate),
      (setWaypointAt l j c).get? j =
        (l.get? j).map (fun wp => applyCandidate wp c) := by
  intro l
  induction l with
  | nil => intro j c; cases j <;> rfl
  | cons wp rest ih =>
      intro j c
      cases j with
      | zero => rfl
      | succ j =>
          simp only [setWaypointAt, List.get?]
          exact ih j c

theorem findIndexQ_some {α : Type} :
    ∀ (l : List α) (p : α → Bool) (m : Nat), findIndexQ p l = some m →
      ∃ a, l.get? m = some a ∧ p a = true := by
  intro l
  induction l with
  | nil => intro p m h; cases h
  | cons a rest ih =>
      intro p m h
      by_cases hp : p a = true
      · rw [findIndexQ, if_pos hp] at h
        cases h
        exact ⟨a, rfl, hp⟩
      · rw [findIndexQ, if_neg hp] at h
        cases hrec : findIndexQ p rest with
        | none => rw [hrec] at h; cases h
        | some m' =>
            rw [hrec] at h
            have h2 : some (m' + 1) = some m := h
            have hm : m' + 1 = m := by injection h2
            subst hm
            obtain ⟨b, hb, hpb⟩ := ih p m' hrec
            exact ⟨b, hb, hpb⟩

theorem applyCandidate_idem (wp : Waypoint) (c : Candidate) :
    applyCandidate (applyCandidate wp c) c = applyCandidate wp c := rfl

theorem geocodeBatchGo_dup_inv
    (geo : String → List Candidate) (waypoints : List Waypoint)
    (n : String) (j k : Nat) (wj : Waypoint) (c : Candidate)
    (hfind : findIndexQ (ungeoNamePred n) waypoints = some j)
    (hwj : waypoints.get? j = some wj) (hwjn : wj.name = n)
    (hknm : ∀ wk, waypoints.get? k = some wk → wk.name = n)
    (hjk : j ≠ k)
    (hgeo : ∀ s, ∃ c1, geo s = [c1])
    (hc : geo n = [c]) :
    ∀ (l updated : List Waypoint) (wkv : Waypoint),
      updated.get? k = some wkv →
      (updated.get? j = some wj ∨ updated.get? j = some (applyCandidate wj c)) →
      (geocodeBatchGo geo waypoints l updated).get? k = some wkv ∧
      ((geocodeBatchGo geo waypoints l updated).get? j = some wj ∨
        (geocodeBatchGo geo waypoints l updated).get? j = some (applyCandidate wj c)) ∧
      (updated.get? j = some (applyCandidate wj c) →
        (geocodeBatchGo geo waypoints l updated).get? j = some (applyCandidate wj c)) ∧
      ((∃ w ∈ l, w.name = n) →
        (geocodeBatchGo geo waypoints l updated).get? j = some (applyCandidate wj c)) := by
  intro l
  induction l with
  | nil =>
      intro updated wkv hk hj
      refine ⟨hk, hj, fun h => h, ?_⟩
      rintro ⟨w, hw, _⟩
      cases hw
  | cons w rest ih =>
      intro updated wkv hk hj
      obtain ⟨c1, hc1⟩ := hgeo w.name
      by_cases hwn : w.name = n
      · -- this iteration writes the candidate for n to index j
        rw [hwn] at hc1
        have hl : [c1] = [c] := hc1.symm.trans hc
        have hcc : c1 = c := by injection hl
        subst hcc
        simp only [geocodeBatchGo, hwn, hc1, hfind]
        have hk' : (setWaypointAt updated j c1).get? k = some wkv := by
          rw [setWaypointAt_get?_ne updated j c1 k (Ne.symm hjk)]
          exact hk
        have hj' : (setWaypointAt updated j c1).get? j = some (applyCandidate wj c1) := by
          rw [setWaypointAt_get?_eq]
          rcases hj with h | h
          · rw [h]; rfl
          · rw [h]
            exact congrArg some (applyCandidate_idem wj c1)
        obtain ⟨g1, g2, g3, _⟩ := ih (setWaypointAt updated j c1) wkv hk' (Or.inr hj')
        exact ⟨g1, g2, fun _ => g3 hj', fun _ => g3 hj'⟩
      · -- a different name: the write (if any) hits neither j nor k
        have hrest_goal : ∀ updated', updated'.get? k = some wkv →
            (updated'.get? j = some wj ∨ updated'.get? j = some (applyCandidate wj c)) →
            (updated.get? j = some (applyCandidate wj c) →
              updated'.get? j = some (applyCandidate wj c)) →
            (geocodeBatchGo geo waypoints rest updated').get? k = some wkv ∧
            ((geocodeBatchGo geo waypoints rest updated').get? j = some wj ∨
              (geocodeBatchGo geo waypoints rest updated').get? j =
                some (applyCandidate wj c)) ∧
            (updated.get? j = some (applyCandidate wj c) →
              (geocodeBatchGo geo waypoints rest updated').get? j =
                some (applyCandidate wj c)) ∧
            ((∃ w2 ∈ rest, w2.name = n) →
              (geocodeBatchGo geo waypoints rest updated').get? j =
                some (applyCandidate wj c)) := by
          intro updated' h1 h2 h3
          obtain ⟨g1, g2, g3, g4⟩ := ih updated' wkv h1 h2
          exact ⟨g1, g2, fun hh => g3 (h3 hh), g4⟩
        cases hfi : findIndexQ (ungeoNamePred w.name) waypoints with
        | none =>
            simp only [geocodeBatchGo, hc1, hfi]
            have h := hrest_goal updated hk hj (fun h => h)
            refine ⟨h.1, h.2.1, h.2.2.1, ?_⟩
            rintro ⟨w2, hw2, hw2n⟩
            rcases List.mem_cons.mp hw2 with rfl | hm
            · exact absurd hw2n hwn
            · exact h.2.2.2 ⟨w2, hm, hw2n⟩
        | some m =>
            obtain ⟨wm, hwm, hpm⟩ := findIndexQ_some waypoints (ungeoNamePred w.name) m hfi
            have hwmn : wm.name = w.name := by
              have := hpm
              simp only [ungeoNamePred, Bool.and_eq_true, decide_eq_true_eq] at this
              exact this.1.1
            have hmj : m ≠ j := by
              intro he
              rw [he, hwj] at hwm
              cases hwm
              exact hwn (hwmn ▸ hwjn)
            have hmk : m ≠ k := by
              intro he
              rw [he] at hwm
              have := hknm wm hwm
              exact hwn (hwmn ▸ this)
            simp only [geocodeBatchGo, hc1, hfi]
            have e1 : (setWaypointAt updated m c1).get? k = some wkv := by
              rw [setWaypointAt_get?_ne updated m c1 k (Ne.symm hmk)]
              exact hk
            have e2 : (setWaypointAt updated m c1).get? j = some wj ∨
                (setWaypointAt updated m c1).get? j = some (applyCandidate wj c) := by
              rw [setWaypointAt_get?_ne updated m c1 j (Ne.symm hmj)]
              exact hj
            have e3 : updated.get? j = some (applyCandidate wj c) →
                (setWaypointAt updated m c1).get? j = some (applyCandidate wj c) := by
              intro hh
              rw [setWaypointAt_get?_ne updated m c1 j (Ne.symm hmj)]
              exact hh
            have h := hrest_goal (setWaypointAt updated m c1) e1 e2 e3
            refine ⟨h.1, h.2.1, h.2.2.1, ?_⟩
            rintro ⟨w2, hw2, hw2n⟩
            rcases List.mem_cons.mp hw2 with rfl | hm2
            · exact absurd hw2n hwn
            · exact h.2.2.2 ⟨w2, hm2, hw2n⟩

/-- C10: the batch geocoder targets the first waypoint matching the
processed name with sentinel coordinates in the original list — so with
two ungeocoded waypoints of the same name, the later one (index k) is
left exactly as it was while the single-candidate result is written to
the earlier one (index j), by every iteration for that name. -/
theorem handleGeocodeWaypoints_dup_name
    (geo : String → List Candidate) (waypoints : List Waypoint)
    (n : String) (j k : Nat) (wk : Waypoint) (c : Candidate)
    (hfind : findIndexQ (ungeoNamePred n) waypoints = some j)
    (hwk : waypoints.get? k = some wk)
    (hwkn : wk.name = n) (hwk0 : wk.lat = 0) (hwk1 : wk.lng = 0)
    (hjk : j ≠ k)
    (hkuniq : ∀ wkv, waypoints.get? k = some wkv → wkv.name = n)
    (hgeo : ∀ s, ∃ c1, geo s = [c1])
    (hc : geo n = [c]) :
    (handleGeocodeWaypoints geo waypoints).get? k = some wk ∧
    ∃ wj, waypoints.get? j = some wj ∧ wj.name = n ∧
      (handleGeocodeWaypoints geo waypoints).get? j = some (applyCandidate wj c) := by
  obtain ⟨wj, hwj, hpj⟩ := findIndexQ_some waypoints (ungeoNamePred n) j hfind
  have hwjn : wj.name = n := by
    simp only [ungeoNamePred, Bool.and_eq_true, decide_eq_true_eq] at hpj
    exact hpj.1.1
  have hmem : wk ∈ waypoints.filter isSentinel := by
    refine List.mem_filter.mpr ⟨?_, ?_⟩
    · exact List.get?_mem hwk
    · simp [isSentinel, hwk0, hwk1]
  have h := geocodeBatchGo_dup_inv geo waypoints n j k wj c hfind hwj hwjn
    hkuniq hjk hgeo hc (waypoints.filter isSentinel) waypoints wk hwk (Or.inl hwj)
  exact ⟨h.1, wj, hwj, hwjn, h.2.2.2 ⟨wk, hmem, hwkn⟩⟩

/-- Witness for C10: two sentinel waypoints both named A; the result is
written to index 0 and index 1 is untouched. -/
theorem handleGeocodeWaypoints_dup_name_witness :
    (handleGeocodeWaypoints
        (fun _ => [{ lat := 34, lng := 77, display_name := "A, India" }])
        [{ id := "u", name := "A", lat := 0, lng := 0, order := 0, display_name := none },
         { id := "v", name := "A", lat := 0, lng := 0, order := 1, display_name := none }]).get? 1 =
      some { id := "v", name := "A", lat := 0, lng := 0, order := 1, display_name := none } ∧
    ∃ wj,
      ([{ id := "u", name := "A", lat := 0, lng := 0, order := 0, display_name := none },
        { id := "v", name := "A", lat := 0, lng := 0, order := 1, display_name := none }] :
          List Waypoint).get? 0 = some wj ∧ wj.name = "A" ∧
      (handleGeocodeWaypoints
          (fun _ => [{ lat := 34, lng := 77, display_name := "A, India" }])
          [{ id := "u", name := "A", lat := 0, lng := 0, order := 0, display_name := none },
           { id := "v", name := "A", lat := 0, lng := 0, order := 1, display_name := none }]).get? 0 =
        some (applyCandidate wj { lat := 34, lng := 77, display_name := "A, India" }) :=
  handleGeocodeWaypoints_dup_name
    (fun _ => [{ lat := 34, lng := 77, display_name := "A, India" }])
    [{ id := "u", name := "A", lat := 0, lng := 0, order := 0, display_name := none },
     { id := "v", name := "A", lat := 0, lng := 0, order := 1, display_name := none }]
    "A" 0 1
    { id := "v", name := "A", lat := 0, lng := 0, order := 1, display_name := none }
    { lat := 34, lng := 77, display_name := "A, India" }
    (by decide) (by decide) (by decide) (by decide) (by decide) (by decide)
    (by intro wkv h; cases h; rfl)
    (fun s => ⟨{ lat := 34, lng := 77, display_name := "A, India" }, rfl⟩)
    rfl

theorem filter_set_of_false (P : Segment → Bool) :
    ∀ (l : List Segment) (m : Nat) (x : Segment), P x = false →
      (∀ old, l.get? m = some old → P old = false) →
      (l.set m x).filter P = l.filter P := by
  intro l
  induction l with
  | nil => intro m x _ _; rfl
  | cons s rest ih =>
      intro m x hx hold
      cases m with
      | zero =>
          have hs : P s = false := hold s rfl
          simp [List.filter_cons, hx, hs]
      | succ m =>
          simp only [List.set, List.filter_cons]
          rw [ih m x hx (fun old h => hold old h)]

theorem filter_spliceInsert_of_false (P : Segment → Bool) :
    ∀ (l : List Segment) (m : Nat) (x : Segment), P x = false →
      (spliceInsert l m x).filter P = l.filter P := by
  intro l
  induction l with
  | nil =>
      intro m x hx
      cases m with
      | zero => simp [spliceInsert, List.filter_cons, hx]
      | succ m => simp [spliceInsert, List.filter_cons, hx]
  | cons s rest ih =>
      intro m x hx
      cases m with
      | zero => simp [spliceInsert, List.filter_cons, hx]
      | succ m =>
          simp only [spliceInsert, List.filter_cons]
          rw [ih m x hx]

theorem recalcStep_filter (routeFn : Waypoint → Waypoint → Option SegmentData)
    (gw : List Waypoint) (segs : List Segment) (i : Nat) (P : Segment → Bool)
    (hP : ∀ s : Segment, pairAt gw i = some (segPair s) → P s = false) :
    (recalcStep routeFn gw segs i).filter P = segs.filter P := by
  cases hfi : gw.get? i with
  | none => simp only [recalcStep, hfi]
  | some wfrom =>
      cases hti : gw.get? (i + 1) with
      | none => simp only [recalcStep, hfi, hti]
      | some wto =>
          cases hr : routeFn wfrom wto with
          | none => simp only [recalcStep, hfi, hti, hr]
          | some data =>
              have hpair : pairAt gw i = some (effId wfrom, effId wto) := by
                simp only [pairAt, hfi, hti]
              have hnew : P ⟨effId wfrom, effId wto, data.polyline, data.distance⟩ = false := by
                apply hP
                rw [hpair]
                rfl
              cases hfind : findIndexQ (fun s => decide (s.fromWaypointId = effId wfrom) &&
                  decide (s.toWaypointId = effId wto)) segs with
              | some m =>
                  simp only [recalcStep, hfi, hti, hr, hfind]
                  apply filter_set_of_false P segs m _ hnew
                  intro old hold
                  obtain ⟨b, hb, hpb⟩ := findIndexQ_some segs _ m hfind
                  rw [hb] at hold
                  cases hold
                  simp only [Bool.and_eq_true, decide_eq_true_eq] at hpb
                  apply hP
                  rw [hpair]
                  simp only [segPair, hpb.1, hpb.2]
              | none =>
                  simp only [recalcStep, hfi, hti, hr, hfind]
                  exact filter_spliceInsert_of_false P segs _ _ hnew

theorem mem_set_or (x s : Segment) :
    ∀ (l : List Segment) (m : Nat), s ∈ l.set m x → s ∈ l ∨ s = x := by
  intro l
  induction l with
  | nil => intro m h; cases h
  | cons a rest ih =>
      intro m h
      cases m with
      | zero =>
          rcases List.mem_cons.mp h with rfl | hm
          · exact Or.inr rfl
          · exact Or.inl (List.mem_cons_of_mem a hm)
      | succ m =>
          rcases List.mem_cons.mp h with rfl | hm
          · exact Or.inl (List.mem_cons_self s rest)
          · rcases ih m hm with h1 | h1
            · exact Or.inl (List.mem_cons_of_mem a h1)
            · exact Or.inr h1

theorem mem_spliceInsert_or (x s : Segment) :
    ∀ (l : List Segment) (m : Nat), s ∈ spliceInsert l m x → s ∈ l ∨ s = x := by
  intro l
  induction l with
  | nil =>
      intro m h
      cases m with
      | zero =>
          rcases List.mem_cons.mp h with rfl | hm
          · exact Or.inr rfl
          · cases hm
      | succ m =>
          rcases List.mem_cons.mp h with rfl | hm
          · exact Or.inr rfl
          · cases hm
  | cons a rest ih =>
      intro m h
      cases m with
      | zero =>
          rcases List.mem_cons.mp h with rfl | hm
          · exact Or.inr rfl
          · exact Or.inl hm
      | succ m =>
          rcases List.mem_cons.mp h with rfl | hm
          · exact Or.inl (List.mem_cons_self s rest)
          · rcases ih m hm with h1 | h1
            · exact Or.inl (List.mem_cons_of_mem a h1)
            · exact Or.inr h1

theorem spliceInsert_length (x : Segment) :
    ∀ (l : List Segment) (m : Nat), (spliceInsert l m x).length = l.length + 1 := by
  intro l
  induction l with
  | nil => intro m; cases m <;> rfl
  | cons a rest ih =>
      intro m
      cases m with
      | zero => rfl
      | succ m => simp [spliceInsert, ih m]

theorem spliceInsert_get?_at (x : Segment) :
    ∀ (l : List Segment) (m : Nat),
      (spliceInsert l m x).get? (min m l.length) = some x := by
  intro l
  induction l with
  | nil => intro m; cases m <;> rfl
  | cons a rest ih =>
      intro m
      cases m with
      | zero => rfl
      | succ m =>
          have : min (m + 1) (a :: rest).length = min m rest.length + 1 := by
            simp [List.length_cons]
            omega
          rw [this]
          simp only [spliceInsert, List.get?]
          exact ih m

theorem set_get?_self (x : Segment) :
    ∀ (l : List Segment) (m : Nat), m < l.length → (l.set m x).get? m = some x := by
  intro l
  induction l with
  | nil => intro m h; simp at h
  | cons a rest ih =>
      intro m h
      cases m with
      | zero => rfl
      | succ m =>
          simp only [List.set, List.get?]
          exact ih m (by simpa using Nat.lt_of_succ_lt_succ (by simpa using h))

theorem set_get?_other (x : Segment) :
    ∀ (l : List Segment) (m k : Nat), k ≠ m → (l.set m x).get? k = l.get? k := by
  intro l
  induction l with
  | nil => intro m k _; rfl
  | cons a rest ih =>
      intro m k hk
      cases m with
      | zero =>
          cases k with
          | zero => exact absurd rfl hk
          | succ k => rfl
      | succ m =>
          cases k with
          | zero => rfl
          | succ k =>
              simp only [List.set, List.get?]
              exact ih m k (by omega)

theorem recalcStep_mem (routeFn : Waypoint → Waypoint → Option SegmentData)
    (gw : List Waypoint) (segs : List Segment) (i : Nat) :
    ∀ s ∈ recalcStep routeFn gw segs i,
      s ∈ segs ∨ pairAt gw i = some (segPair s) := by
  intro s hs
  cases hfi : gw.get? i with
  | none =>
      simp only [recalcStep, hfi] at hs
      exact Or.inl hs
  | some wfrom =>
      cases hti : gw.get? (i + 1) with
      | none =>
          simp only [recalcStep, hfi, hti] at hs
          exact Or.inl hs
      | some wto =>
          cases hr : routeFn wfrom wto with
          | none =>
              simp only [recalcStep, hfi, hti, hr] at hs
              exact Or.inl hs
          | some data =>
              have hpair : pairAt gw i = some (effId wfrom, effId wto) := by
                simp only [pairAt, hfi, hti]
              cases hfind : findIndexQ (fun s => decide (s.fromWaypointId = effId wfrom) &&
                  decide (s.toWaypointId = effId wto)) segs with
              | some m =>
                  simp only [recalcStep, hfi, hti, hr, hfind] at hs
                  rcases mem_set_or _ s segs m hs with h1 | h1
                  · exact Or.inl h1
                  · subst h1
                    exact Or.inr (by rw [hpair]; rfl)
              | none =>
                  simp only [recalcStep, hfi, hti, hr, hfind] at hs
                  rcases mem_spliceInsert_or _ s segs i hs with h1 | h1
                  · exact Or.inl h1
                  · subst h1
                    exact Or.inr (by rw [hpair]; rfl)

theorem recalcStep_length (routeFn : Waypoint → Waypoint → Option SegmentData)
    (gw : List Waypoint) (segs : List Segment) (i : Nat) :
    segs.length ≤ (recalcStep routeFn gw segs i).length ∧
      (recalcStep routeFn gw segs i).length ≤ segs.length + 1 := by
  cases hfi : gw.get? i with
  | none => simp only [recalcStep, hfi]; omega
  | some wfrom =>
      cases hti : gw.get? (i + 1) with
      | none => simp only [recalcStep, hfi, hti]; omega
      | some wto =>
          cases hr : routeFn wfrom wto with
          | none => simp only [recalcStep, hfi, hti, hr]; omega
          | some data =>
              cases hfind : findIndexQ (fun s => decide (s.fromWaypointId = effId wfrom) &&
                  decide (s.toWaypointId = effId wto)) segs with
              | some m =>
                  simp only [recalcStep, hfi, hti, hr, hfind, List.length_set]
                  omega
              | none =>
                  simp only [recalcStep, hfi, hti, hr, hfind, spliceInsert_length]
                  omega

theorem foldl_recalc_filter (routeFn : Waypoint → Waypoint → Option SegmentData)
    (gw : List Waypoint) :
    ∀ (idx : List Nat) (segs : List Segment) (P : Segment → Bool),
      (∀ i ∈ idx, ∀ s : Segment, pairAt gw i = some (segPair s) → P s = false) →
      (idx.foldl (recalcStep routeFn gw) segs).filter P = segs.filter P := by
  intro idx
  induction idx with
  | nil => intro segs P _; rfl
  | cons i rest ih =>
      intro segs P hP
      simp only [List.foldl_cons]
      rw [ih (recalcStep routeFn gw segs i) P
        (fun i2 h2 => hP i2 (List.mem_cons_of_mem i h2))]
      exact recalcStep_filter routeFn gw segs i P (hP i (List.mem_cons_self i rest))

theorem foldl_recalc_mem (routeFn : Waypoint → Waypoint → Option SegmentData)
    (gw : List Waypoint) :
    ∀ (idx : List Nat) (segs : List Segment), ∀ s ∈ idx.foldl (recalcStep routeFn gw) segs,
      s ∈ segs ∨ ∃ i ∈ idx, pairAt gw i = some (segPair s) := by
  intro idx
  induction idx with
  | nil => intro segs s hs; exact Or.inl hs
  | cons i rest ih =>
      intro segs s hs
      simp only [List.foldl_cons] at hs
      rcases ih (recalcStep routeFn gw segs i) s hs with h1 | h1
      · rcases recalcStep_mem routeFn gw segs i s h1 with h2 | h2
        · exact Or.inl h2
        · exact Or.inr ⟨i, List.mem_cons_self i rest, h2⟩
      · obtain ⟨i2, hi2, hp2⟩ := h1
        exact Or.inr ⟨i2, List.mem_cons_of_mem i hi2, hp2⟩

theorem foldl_recalc_length (routeFn : Waypoint → Waypoint → Option SegmentData)
    (gw : List Waypoint) :
    ∀ (idx : List Nat) (segs : List Segment),
      segs.length ≤ (idx.foldl (recalcStep routeFn gw) segs).length ∧
      (idx.foldl (recalcStep routeFn gw) segs).length ≤ segs.length + idx.length := by
  intro idx
  induction idx with
  | nil => intro segs; simp
  | cons i rest ih =>
      intro segs
      simp only [List.foldl_cons, List.length_cons]
      have h1 := recalcStep_length routeFn gw segs i
      have h2 := ih (recalcStep routeFn gw segs i)
      omega

/-- C1 (amended): partial recalculation touches at most the two segments
adjacent to the edited waypoint in the geocoded list; every non-affected
segment is left value-identical and in order; a recomputed segment
replaces the first entry with the matching id pair; when no entry matches
it is spliced in at its geocoded pair index clamped to the list length
(which can append it after later-pair segments when earlier segments are
missing from the list). -/
theorem handleRecalculateAffectedSegments_spec
    (routeFn : Waypoint → Waypoint → Option SegmentData)
    (waypoints : List Waypoint) (segments : List Segment)
    (c : Nat) (result : List Segment)
    (hres : handleRecalculateAffectedSegments routeFn waypoints segments c = some result) :
    (result = segments ∨
      ∃ g, findGeocodedIndex waypoints (waypoints.filter isGeocoded) c = some g ∧
        (affectedIdx (waypoints.filter isGeocoded) g).length ≤ 2 ∧
        (∀ i ∈ affectedIdx (waypoints.filter isGeocoded) g, g - 1 ≤ i ∧ i ≤ g) ∧
        (∀ P : Segment → Bool,
          (∀ i ∈ affectedIdx (waypoints.filter isGeocoded) g,
            ∀ s : Segment,
              pairAt (waypoints.filter isGeocoded) i = some (segPair s) → P s = false) →
          result.filter P = segments.filter P) ∧
        (∀ s ∈ result, s ∈ segments ∨
          ∃ i ∈ affectedIdx (waypoints.filter isGeocoded) g,
            pairAt (waypoints.filter isGeocoded) i = some (segPair s)) ∧
        segments.length ≤ result.length ∧ result.length ≤ segments.length + 2) ∧
    (∀ (segs2 : List Segment) (i : Nat) (wfrom wto : Waypoint) (data : SegmentData)
        (m : Nat),
      (waypoints.filter isGeocoded).get? i = some wfrom →
      (waypoints.filter isGeocoded).get? (i + 1) = some wto →
      routeFn wfrom wto = some data →
      findIndexQ (fun s => decide (s.fromWaypointId = effId wfrom) &&
        decide (s.toWaypointId = effId wto)) segs2 = some m →
      (∃ old, segs2.get? m = some old ∧ segPair old = (effId wfrom, effId wto)) ∧
      recalcStep routeFn (waypoints.filter isGeocoded) segs2 i =
        segs2.set m ⟨effId wfrom, effId wto, data.polyline, data.distance⟩) ∧
    (∀ (segs2 : List Segment) (i : Nat) (wfrom wto : Waypoint) (data : SegmentData),
      (waypoints.filter isGeocoded).get? i = some wfrom →
      (waypoints.filter isGeocoded).get? (i + 1) = some wto →
      routeFn wfrom wto = some data →
      findIndexQ (fun s => decide (s.fromWaypointId = effId wfrom) &&
        decide (s.toWaypointId = effId wto)) segs2 = none →
      recalcStep routeFn (waypoints.filter isGeocoded) segs2 i =
        spliceInsert segs2 i ⟨effId wfrom, effId wto, data.polyline, data.distance⟩ ∧
      (spliceInsert segs2 i
          ⟨effId wfrom, effId wto, data.polyline, data.distance⟩).get?
          (min i segs2.length) =
        some ⟨effId wfrom, effId wto, data.polyline, data.distance⟩) := by
  refine ⟨?_, ?_, ?_⟩
  · -- the run-level disjunction
    simp only [handleRecalculateAffectedSegments] at hres
    by_cases h2 : (waypoints.filter isGeocoded).length < 2
    · rw [if_pos h2] at hres
      cases hres
    · rw [if_neg h2] at hres
      cases hfg : findGeocodedIndex waypoints (waypoints.filter isGeocoded) c with
      | none =>
          rw [hfg] at hres
          cases hres
      | some g =>
          rw [hfg] at hres
          simp only at hres
          by_cases hlt : min ((waypoints.filter isGeocoded).length - 2) g < g - 1
          · rw [if_pos hlt] at hres
            left
            exact (Option.some.injEq _ _).mp hres |>.symm
          · rw [if_neg hlt] at hres
            have hreq : result =
                (affectedIdx (waypoints.filter isGeocoded) g).foldl
                  (recalcStep routeFn (waypoints.filter isGeocoded)) segments :=
              ((Option.some.injEq _ _).mp hres).symm
            right
            have hlen : (affectedIdx (waypoints.filter isGeocoded) g).length =
                min ((waypoints.filter isGeocoded).length - 2) g - (g - 1) + 1 := by
              simp [affectedIdx]
            refine ⟨g, rfl, ?_, ?_, ?_, ?_, ?_, ?_⟩
            · omega
            · intro i hi
              rw [affectedIdx, List.mem_range'_1] at hi
              omega
            · intro P hP
              rw [hreq]
              exact foldl_recalc_filter routeFn (waypoints.filter isGeocoded) _ segments P hP
            · intro s hs
              rw [hreq] at hs
              exact foldl_recalc_mem routeFn (waypoints.filter isGeocoded) _ segments s hs
            · rw [hreq]
              exact (foldl_recalc_length routeFn (waypoints.filter isGeocoded) _ segments).1
            · rw [hreq]
              have hfl := (foldl_recalc_length routeFn (waypoints.filter isGeocoded)
                (affectedIdx (waypoints.filter isGeocoded) g) segments).2
              omega
  · -- replacement of the matching pair entry
    intro segs2 i wfrom wto data m hfi hti hr hfind
    constructor
    · obtain ⟨old, hold, hpold⟩ := findIndexQ_some segs2 _ m hfind
      refine ⟨old, hold, ?_⟩
      simp only [Bool.and_eq_true, decide_eq_true_eq] at hpold
      simp [segPair, hpold.1, hpold.2]
    · simp only [recalcStep, hfi, hti, hr, hfind]
  · -- splice at the clamped pair index when no entry matches
    intro segs2 i wfrom wto data hfi hti hr hfind
    constructor
    · simp only [recalcStep, hfi, hti, hr, hfind]
    · exact spliceInsert_get?_at _ segs2 i

/-- Witness for C1: a two-waypoint route with an empty segment list; the
single affected segment is spliced in at index 0. -/
theorem handleRecalculateAffectedSegments_spec_witness :
    recalcStep cexRoute (cexWaypoints.filter isGeocoded) [] 0 =
      spliceInsert [] 0
        ⟨effId { id := "a", name := "A", lat := 1, lng := 1, order := 0,
                 display_name := none },
         effId { id := "b", name := "B", lat := 2, lng := 1, order := 1,
                 display_name := none }, [], 1⟩ ∧
    (spliceInsert [] 0
        ⟨effId { id := "a", name := "A", lat := 1, lng := 1, order := 0,
                 display_name := none },
         effId { id := "b", name := "B", lat := 2, lng := 1, order := 1,
                 display_name := none }, [], 1⟩).get? (min 0 ([] : List Segment).length) =
      some ⟨effId { id := "a", name := "A", lat := 1, lng := 1, order := 0,
                    display_name := none },
            effId { id := "b", name := "B", lat := 2, lng := 1, order := 1,
                    display_name := none }, [], 1⟩ :=
  (handleRecalculateAffectedSegments_spec cexRoute cexWaypoints []
      3
      [⟨"c", "d", [], 1⟩, ⟨"d", "e", [], 1⟩]
      (by decide)).2.2
    [] 0
    { id := "a", name := "A", lat := 1, lng := 1, order := 0, display_name := none }
    { id := "b", name := "B", lat := 2, lng := 1, order := 1, display_name := none }
    { polyline := [], distance := 1 }
    (by decide) (by decide) rfl rfl

/-- C1 counterexample: with segments stored only for pairs 0 and 5, the
recalculation after editing waypoint `d` (geocoded index 3) splices the
new pair-2 and pair-3 segments at raw indices 2 and 3 — past the pair-5
segment — so the result is appended out of pair order instead of being
inserted at the correct position. -/
theorem handleRecalc_insert_position_counterexample :
    handleRecalculateAffectedSegments cexRoute cexWaypoints cexSegments 3 =
      some [{ fromWaypointId := "a", toWaypointId := "b", polyline := [], distance := 1 },
            { fromWaypointId := "f", toWaypointId := "g", polyline := [], distance := 1 },
            { fromWaypointId := "c", toWaypointId := "d", polyline := [], distance := 1 },
            { fromWaypointId := "d", toWaypointId := "e", polyline := [], distance := 1 }] ∧
    cexSegments.map (segPairIdx (cexWaypoints.filter isGeocoded)) =
      [some 0, some 5] ∧
    ([{ fromWaypointId := "a", toWaypointId := "b", polyline := [], distance := 1 },
      { fromWaypointId := "f", toWaypointId := "g", polyline := [], distance := 1 },
      { fromWaypointId := "c", toWaypointId := "d", polyline := [], distance := 1 },
      { fromWaypointId := "d", toWaypointId := "e", polyline := [], distance := 1 }] :
        List Segment).map (segPairIdx (cexWaypoints.filter isGeocoded)) =
      [some 0, some 5, some 2, some 3] ∧
    List.Chain' (· < ·) [0, 5] ∧
    ¬ List.Chain' (· < ·) ([0, 5, 2, 3] : List Nat) := by
  refine ⟨by decide, by decide, by decide, ?_, ?_⟩
  · simp [List.chain'_cons]
  · simp [List.chain'_cons]

theorem fallbackProbes_head (s maxS : ℚ) :
    ∀ (fuel : Nat) (step : ℚ) (q : ℚ),
      (fallbackProbes s maxS fuel step).head? = some q → q = step := by
  intro fuel
  cases fuel with
  | zero => intro step q h; cases h
  | succ f =>
      intro step q h
      by_cases hle : step ≤ maxS
      · rw [fallbackProbes, if_pos hle] at h
        cases h
        rfl
      · rw [fallbackProbes, if_neg hle] at h
        cases h

theorem fallbackProbes_spec (s maxS : ℚ) (hs : 0 < s) :
    ∀ (fuel : Nat) (k0 : Nat),
      (∀ p ∈ fallbackProbes s maxS fuel (((k0 : ℚ) + 1) * s),
        (∃ k : Nat, 1 ≤ k ∧ p = (k : ℚ) * s) ∧ p ≤ maxS) ∧
      List.Chain' (· < ·) (fallbackProbes s maxS fuel (((k0 : ℚ) + 1) * s)) := by
  intro fuel
  induction fuel with
  | zero =>
      intro k0
      constructor
      · intro p hp; cases hp
      · simp [fallbackProbes]
  | succ f ih =>
      intro k0
      by_cases hle : ((k0 : ℚ) + 1) * s ≤ maxS
      · have hstep : ((k0 : ℚ) + 1) * s + s = (((k0 + 1 : Nat) : ℚ) + 1) * s := by
          push_cast
          ring
        have ihh := ih (k0 + 1)
        rw [fallbackProbes, if_pos hle]
        constructor
        · intro p hp
          rcases List.mem_cons.mp hp with rfl | hm
          · exact ⟨⟨k0 + 1, by omega, by push_cast; ring⟩, hle⟩
          · rw [hstep] at hm
            exact ihh.1 p hm
        · rw [List.chain'_cons']
          refine ⟨?_, by rw [hstep]; exact ihh.2⟩
          intro q hq
          rw [hstep] at hq
          have := fallbackProbes_head s maxS f _ q hq
          rw [this, ← hstep]
          linarith
      · rw [fallbackProbes, if_neg hle]
        exact ⟨fun p hp => absurd hp (List.not_mem_nil p), by simp⟩

theorem fallbackSearchGo_spec (routeOk : ℚ × ℚ → Bool) (pointFn : ℚ → ℚ × ℚ) :
    ∀ (l : List ℚ) (att : Nat) (pt : ℚ × ℚ) (pd : ℚ) (n : Nat),
      fallbackSearchGo routeOk pointFn l att = some (pt, pd, n) →
      pd ∈ l ∧ pt = pointFn pd ∧ routeOk pt = true := by
  intro l
  induction l with
  | nil => intro att pt pd n h; cases h
  | cons p rest ih =>
      intro att pt pd n h
      by_cases hr : routeOk (pointFn p) = true
      · rw [fallbackSearchGo, if_pos hr] at h
        simp only [Option.some.injEq, Prod.mk.injEq] at h
        obtain ⟨h1, h2, _⟩ := h
        subst h2
        exact ⟨List.mem_cons_self p rest, h1.symm, h1 ▸ hr⟩
      · rw [fallbackSearchGo, if_neg hr] at h
        obtain ⟨h1, h2, h3⟩ := ih (att + 1) pt pd n h
        exact ⟨List.mem_cons_of_mem p h1, h2, h3⟩

/-- C5 (spec-modelled): every probe of the fallback search lies at a
distance `k * stepSize` from B with `k ≥ 1`, the probes are tried at
strictly increasing distances, none exceeds `d / 2`, and a success result
is one of the probes — so its candidate lies no farther than half the
A–B distance from B. -/
theorem findRoutableCoordinate_spec (routeOk : ℚ × ℚ → Bool)
    (pointFn : ℚ → ℚ × ℚ) (d s : ℚ) (fuel : Nat) (hs : 0 < s) :
    (∀ p ∈ fallbackProbes s (d / 2) fuel s,
      (∃ k : Nat, 1 ≤ k ∧ p = (k : ℚ) * s) ∧ p ≤ d / 2) ∧
    List.Chain' (· < ·) (fallbackProbes s (d / 2) fuel s) ∧
    (∀ pt pd att, findRoutableCoordinate routeOk pointFn d s fuel = some (pt, pd, att) →
      pd ∈ fallbackProbes s (d / 2) fuel s ∧ pd ≤ d / 2 ∧
      (∃ k : Nat, 1 ≤ k ∧ pd = (k : ℚ) * s) ∧
      pt = pointFn pd ∧ routeOk pt = true) := by
  have hstart : s = (((0 : Nat) : ℚ) + 1) * s := by push_cast; ring
  have hp := fallbackProbes_spec s (d / 2) hs fuel 0
  rw [← hstart] at hp
  refine ⟨hp.1, hp.2, ?_⟩
  intro pt pd att h
  obtain ⟨h1, h2, h3⟩ := fallbackSearchGo_spec routeOk pointFn _ 0 pt pd att h
  exact ⟨h1, (hp.1 pd h1).2, (hp.1 pd h1).1, h2, h3⟩

/-- Witness for C5 at stepSize 100 and distance 1000. -/
theorem findRoutableCoordinate_spec_witness :
    List.Chain' (· < ·) (fallbackProbes 100 ((1000 : ℚ) / 2) 10 100) :=
  (findRoutableCoordinate_spec (fun _ => true) (fun q => (q, 0)) 1000 100 10
    (by decide)).2.1

end Himalayas
